import Mathlib

/-!
Verification of the foodgram backend core: the short-link issuer
(`foodgram/models.py` `Token`, `api/views.py` `RecipeViewSet.get_link`,
`ShortLinkRedirectView`) and the shopping-list aggregator
(`RecipeViewSet._generate_shopping_list` / `download_shopping_cart`).

The database is modelled as explicit lists of rows; the random stream feeding
`random.choices` is modelled as an explicit list of index draws; the
collision-avoidance `while True` loop of `Token.generate_short_url` becomes a
structural recursion over that finite stream returning `Option` (`none` when
the supplied stream is exhausted, which corresponds to the loop not having
terminated yet).
-/

namespace Foodgram

/-! ### Settings (`foodgram_final/settings.py`)

`CHARACTERS = f'{string.ascii_letters} + {string.digits}'` — note this is an
f-string: the literal text " + " (space, plus, space) lands inside the
alphabet between the letters and the digits. -/

def ascii_letters : String :=
  "abcdefghijklmnopqrstuvwxyzABCDEFGHIJKLMNOPQRSTUVWXYZ"

def string_digits : String := "0123456789"

def CHARACTERS : String := ascii_letters ++ " + " ++ string_digits

def TOKEN_LENGTH : Nat := 6

def BASE_SHORT_URL : String := "foodgram-bobgoz.duckdns.org/api/s"

/-! ### Token model (`foodgram/models.py`) -/

/-- One row of the `Token` table: `full_url` (unique), `short_url`
(unique, generated), `requests_count` (IntegerField, default 0),
`is_active` (BooleanField, default False). `created_at` is omitted:
no claim mentions it. -/
structure Token where
  full_url : String
  short_url : String
  requests_count : Int
  is_active : Bool
deriving DecidableEq, Repr

/-- Model of `random.choices(settings.CHARACTERS, k=settings.TOKEN_LENGTH)` and
the `''.join` around it: `k` independent uniform picks from the population, modelled
by a list of arbitrary natural seeds reduced mod the population size. -/
def randChoices (population : String) (k : Nat) (idxs : List Nat) : String :=
  String.mk ((List.range k).map fun j =>
    population.data.getD ((idxs.getD j 0) % population.data.length) 'a')

/-- Model of `Token.generate_short_url`: loop drawing candidates until one is not
already a `short_url` of an existing row. The candidate stream is the list of
index draws; an exhausted stream returns `none` (loop still running). -/
def generate_short_url (existing : List String) : List (List Nat) → Option String
  | [] => none
  | idxs :: rest =>
    let short_url := randChoices CHARACTERS TOKEN_LENGTH idxs
    if existing.contains short_url then generate_short_url existing rest
    else some short_url

/-- The `short_url` column of the table. -/
def shortUrls (db : List Token) : List String := db.map Token.short_url

/-- Model of the `RecipeViewSet.get_link` body once `full_url` is computed:
`Token.objects.get_or_create(full_url=full_url, defaults={'is_active': True})`;
on an existing row `requests_count += 1; save()`; on a fresh row `Token.save`
fills the blank `short_url` from `generate_short_url`. Returns the token part
of the short link together with the new table state; `none` when the generator
stream ran out (the source loop would still be spinning). -/
def get_link (db : List Token) (full_url : String) (draws : List (List Nat)) :
    Option (String × List Token) :=
  match db.find? (fun t => t.full_url == full_url) with
  | some token =>
    some (token.short_url,
      db.map fun t =>
        if t.full_url == full_url then
          { t with requests_count := t.requests_count + 1 }
        else t)
  | none =>
    match generate_short_url (shortUrls db) draws with
    | some s =>
      some (s, db ++ [{ full_url := full_url, short_url := s,
                        requests_count := 0, is_active := true }])
    | none => none

/-- The short link string returned in the response body:
`f'{settings.BASE_SHORT_URL}/{token.short_url}'`. -/
def short_link (s : String) : String := BASE_SHORT_URL ++ "/" ++ s

/-- Model of `ShortLinkRedirectView.get`:
`get_object_or_404(Token, short_url=short_url, is_active=True)`, then
`requests_count += 1; save()`, then redirect to `token.full_url`.
`none` models the 404 response. -/
def redirect_get (db : List Token) (short_url : String) :
    Option (String × List Token) :=
  match db.find? (fun t => t.short_url == short_url && t.is_active) with
  | some token =>
    some (token.full_url,
      db.map fun t =>
        if t.short_url == short_url && t.is_active then
          { t with requests_count := t.requests_count + 1 }
        else t)
  | none => none

/-! ### Operations and traces over the token table -/

/-- The two operations of the short-link core. -/
inductive Op where
  | getLink (full_url : String) (draws : List (List Nat))
  | redirect (short_url : String)

/-- State transition of one operation; an operation that answers 404 or whose
generator stream is exhausted leaves the table unchanged. -/
def applyOp (db : List Token) : Op → List Token
  | .getLink u d =>
    match get_link db u d with
    | some (_, db') => db'
    | none => db
  | .redirect s =>
    match redirect_get db s with
    | some (_, db') => db'
    | none => db

/-- Run a sequence of operations. -/
def run (ops : List Op) (db : List Token) : List Token :=
  ops.foldl applyOp db

/-! ### URL routing (`foodgram_final/urls.py`)

`re_path(r'^api/s/(?P<short_url>[a-zA-Z0-9]{6})/$', ShortLinkRedirectView...)`:
the captured token must be exactly six characters, each in the three ranges of
the character class. -/

/-- The character class `[a-zA-Z0-9]` of the redirect route, as ranges. -/
def token_char_class (c : Char) : Bool :=
  ('a' ≤ c && c ≤ 'z') || ('A' ≤ c && c ≤ 'Z') || ('0' ≤ c && c ≤ '9')

/-- The route matches iff the token is six characters of the class (`{6}`). -/
def route_matches (s : String) : Bool :=
  s.length == 6 && s.data.all token_char_class

/-- URL dispatch for a short-link GET: the view runs only when the route
regex matches; otherwise the framework answers 404 (`none`). -/
def handle_short_link (db : List Token) (s : String) :
    Option (String × List Token) :=
  if route_matches s then redirect_get db s else none

/-! ### Shopping-list aggregator (`foodgram/models.py`, `api/views.py`) -/

/-- One row of the `Ingredient` table. -/
structure Ingredient where
  id : Nat
  name : String
  measurement_unit : String
deriving DecidableEq, Repr

/-- One row of `RecipeIngredient`: foreign keys to recipe and ingredient plus
a positive amount (`PositiveSmallIntegerField`, modelled as `Nat`). -/
structure RecipeIngredient where
  recipe : Nat
  ingredient : Nat
  amount : Nat
deriving DecidableEq, Repr

/-- One row of `ShoppingCart`: a (user, recipe) pair. -/
structure ShoppingCart where
  user : Nat
  recipe : Nat
deriving DecidableEq, Repr

/-- The tables the aggregator reads. -/
structure FoodDB where
  ingredients : List Ingredient
  recipe_ingredients : List RecipeIngredient
  shopping_carts : List ShoppingCart

/-- The rows selected by
`RecipeIngredient.objects.filter(recipe__in_shopping_carts__user=user)`
joined to `Ingredient` by the `values('ingredient__name',
'ingredient__measurement_unit')` projection, keeping the `amount` column:
each surviving row becomes (name, unit, amount). The inner join drops rows
whose ingredient key has no matching `Ingredient` row (the foreign key makes
that impossible in the real database). -/
def cartRows (db : FoodDB) (user : Nat) : List (String × String × Nat) :=
  (db.recipe_ingredients.filter fun ri =>
      db.shopping_carts.any fun sc => sc.user == user && sc.recipe == ri.recipe).filterMap
    fun ri =>
      (db.ingredients.find? fun i => i.id == ri.ingredient).map
        fun i => (i.name, i.measurement_unit, ri.amount)

/-- The grouping key of `.values('ingredient__name',
'ingredient__measurement_unit')`. -/
def itemKey (r : String × String × Nat) : String × String := (r.1, r.2.1)

/-- Value of `annotate(total=Sum('amount'))` for one group key. -/
def groupTotal (rows : List (String × String × Nat)) (k : String × String) :
    Nat :=
  ((rows.filter fun r => itemKey r == k).map fun r => r.2.2).sum

/-- The ordering of `.order_by('ingredient__name')`: alphabetical on the
ingredient name; rows with equal names (possible with distinct measurement
units) are returned in an order the database does not fix, which this model
makes deterministic by breaking ties on the unit. -/
def keyLE (a b : String × String) : Prop :=
  a.1 < b.1 ∨ (a.1 = b.1 ∧ a.2 ≤ b.2)

instance : DecidableRel keyLE := fun a b =>
  inferInstanceAs (Decidable (a.1 < b.1 ∨ (a.1 = b.1 ∧ a.2 ≤ b.2)))

instance : IsTotal (String × String) keyLE where
  total a b := by
    rcases lt_trichotomy a.1 b.1 with h | h | h
    · exact Or.inl (Or.inl h)
    · rcases le_total a.2 b.2 with h2 | h2
      · exact Or.inl (Or.inr ⟨h, h2⟩)
      · exact Or.inr (Or.inr ⟨h.symm, h2⟩)
    · exact Or.inr (Or.inl h)

instance : IsTrans (String × String) keyLE where
  trans a b c hab hbc := by
    rcases hab with h1 | ⟨e1, u1⟩
    · rcases hbc with h2 | ⟨e2, _⟩
      · exact Or.inl (h1.trans h2)
      · exact Or.inl (e2 ▸ h1)
    · rcases hbc with h2 | ⟨e2, u2⟩
      · exact Or.inl (e1 ▸ h2)
      · exact Or.inr ⟨e1.trans e2, u1.trans u2⟩

/-- Model of `RecipeViewSet._generate_shopping_list`: the cart rows grouped by
(name, unit), each group annotated with the sum of its amounts, ordered by
ingredient name. -/
def generate_shopping_list (db : FoodDB) (user : Nat) :
    List (String × String × Nat) :=
  let rows := cartRows db user
  (List.insertionSort keyLE (rows.map itemKey).dedup).map
    fun k => (k.1, k.2, groupTotal rows k)

/-- The text lines drawn into the PDF by
`RecipeViewSet.download_shopping_cart`: the header `'Список покупок'`
followed by one line per aggregated item. -/
def shopping_doc_lines (db : FoodDB) (user : Nat) : List String :=
  "Список покупок" ::
    (generate_shopping_list db user).map fun item =>
      "- " ++ item.1 ++ " (" ++ toString item.2.2 ++ " " ++ item.2.1 ++ ")"

/-- Concrete database for the flour scenario of the spec: recipe 1 needs
200 g of flour, recipe 2 needs 300 g, and user 1 has both in the cart. -/
def flourDB : FoodDB :=
  { ingredients := [{ id := 1, name := "flour", measurement_unit := "g" }],
    recipe_ingredients := [{ recipe := 1, ingredient := 1, amount := 200 },
                           { recipe := 2, ingredient := 1, amount := 300 }],
    shopping_carts := [{ user := 1, recipe := 1 }, { user := 1, recipe := 2 }] }

/-! ### Generator lemmas -/

/-- The collision loop only ever returns a string that is not already in the
`short_url` column. -/
theorem generate_short_url_not_mem (existing : List String) :
    ∀ (draws : List (List Nat)) (s : String),
      generate_short_url existing draws = some s → s ∉ existing := by
  intro draws
  induction draws with
  | nil => intro s h; simp [generate_short_url] at h
  | cons d rest ih =>
    intro s h
    rw [generate_short_url] at h
    split at h
    · exact ih s h
    · next hc =>
      injection h with h'
      subst h'
      intro hm
      exact hc (by simpa using hm)

/-- Mapping a row transformer that keeps `short_url` keeps the `short_url`
column. -/
theorem shortUrls_map_of_pres {f : Token → Token}
    (h : ∀ t, (f t).short_url = t.short_url) (db : List Token) :
    shortUrls (db.map f) = shortUrls db := by
  simp only [shortUrls, List.map_map, Function.comp]
  exact List.map_congr_left fun t _ => h t

/-- A single operation preserves distinctness of the `short_url` column. -/
theorem nodup_applyOp {db : List Token} (op : Op)
    (h : (shortUrls db).Nodup) : (shortUrls (applyOp db op)).Nodup := by
  cases op with
  | getLink u d =>
    simp only [applyOp, get_link]
    cases hf : db.find? (fun t => t.full_url == u) with
    | some token =>
      rw [shortUrls_map_of_pres]
      · exact h
      · intro t; split <;> rfl
    | none =>
      cases hg : generate_short_url (shortUrls db) d with
      | some s =>
        have hs : s ∉ shortUrls db := generate_short_url_not_mem _ _ _ hg
        have hcol : shortUrls (db ++ [Token.mk u s 0 true])
            = shortUrls db ++ [s] := by simp [shortUrls]
        simp only [hcol]
        refine List.nodup_append.mpr ⟨h, by simp, ?_⟩
        intro x hx hxs
        rw [List.mem_singleton] at hxs
        exact hs (hxs ▸ hx)
      | none => simpa using h
  | redirect s =>
    simp only [applyOp, redirect_get]
    cases hf : db.find? (fun t => t.short_url == s && t.is_active) with
    | some token =>
      rw [shortUrls_map_of_pres]
      · exact h
      · intro t; split <;> rfl
    | none => simpa using h

/-- Any run of operations preserves distinctness of the `short_url` column. -/
theorem nodup_run (ops : List Op) {db : List Token}
    (h : (shortUrls db).Nodup) : (shortUrls (run ops db)).Nodup := by
  induction ops generalizing db with
  | nil => simpa [run] using h
  | cons op rest ih =>
    simpa [run, List.foldl_cons] using ih (nodup_applyOp op h)

/-- C3: `Token.generate_short_url` only returns a short url that no existing
token carries, so in every state reachable from the empty table by get-link
and redirect operations the `short_url` values are pairwise distinct. -/
theorem short_urls_unique_invariant :
    (∀ (existing : List String) (draws : List (List Nat)) (s : String),
        generate_short_url existing draws = some s → s ∉ existing)
    ∧ ∀ ops : List Op, (shortUrls (run ops [])).Nodup := by
  refine ⟨generate_short_url_not_mem, fun ops => nodup_run ops ?_⟩
  simp [shortUrls]

/-- Witness for `short_urls_unique_invariant` at concrete inputs. -/
theorem short_urls_unique_invariant_w :
    "aaaaaa" ∉ (["bbbbbb"] : List String)
    ∧ (shortUrls (run [Op.getLink "u" [[0, 0, 0, 0, 0, 0]]] [])).Nodup :=
  ⟨short_urls_unique_invariant.1 ["bbbbbb"] [[0, 0, 0, 0, 0, 0]] "aaaaaa"
      (by decide),
   short_urls_unique_invariant.2 [Op.getLink "u" [[0, 0, 0, 0, 0, 0]]]⟩

/-- C2: the alphabet actually used by the generator is the 65-character
string `ascii_letters ++ " + " ++ digits` — the f-string in `settings.py`
embeds a literal " + ". Six draws of index 53 produce the short url
`"++++++"`, whose characters are not letters or digits (though the length is
the fixed `TOKEN_LENGTH`), and which the redirect route `[a-zA-Z0-9]{6}`
can never match. -/
theorem short_url_alphabet_code_bug :
    generate_short_url [] [[53, 53, 53, 53, 53, 53]] = some "++++++"
    ∧ "++++++".length = TOKEN_LENGTH
    ∧ ("++++++".data.all Char.isAlphanum) = false
    ∧ route_matches "++++++" = false
    ∧ (' ' ∈ CHARACTERS.data ∧ '+' ∈ CHARACTERS.data) := by
  refine ⟨by decide, by decide, by decide, by decide, by decide, by decide⟩

/-- The route character class coincides pointwise with ASCII
letter-or-digit. -/
theorem token_char_class_eq_isAlphanum (c : Char) :
    token_char_class c = c.isAlphanum := by
  unfold token_char_class Char.isAlphanum Char.isAlpha Char.isUpper
    Char.isLower Char.isDigit
  rw [Bool.eq_iff_iff]
  simp only [Bool.or_eq_true, Bool.and_eq_true, decide_eq_true_eq, ge_iff_le,
    Char.le_def]
  have ea : ('a').val = 97 := rfl
  have ez : ('z').val = 122 := rfl
  have eA : ('A').val = 65 := rfl
  have eZ : ('Z').val = 90 := rfl
  have e0 : ('0').val = 48 := rfl
  have e9 : ('9').val = 57 := rfl
  rw [ea, ez, eA, eZ, e0, e9]
  tauto

/-- C10: the short-link route accepts exactly the strings of six ASCII
letters or digits; on a match the redirect view runs, on a non-match the
request is answered not-found without reaching the view. -/
theorem short_link_route_class (db : List Token) (s : String) :
    (route_matches s = true ↔
      s.length = 6 ∧ ∀ c ∈ s.data, c.isAlphanum = true)
    ∧ (route_matches s = true → handle_short_link db s = redirect_get db s)
    ∧ (route_matches s = false → handle_short_link db s = none) := by
  refine ⟨?_, fun h => by simp [handle_short_link, h],
    fun h => by simp [handle_short_link, h]⟩
  unfold route_matches
  simp [List.all_eq_true, token_char_class_eq_isAlphanum]

/-- Witness for `short_link_route_class`: a well-formed token matches, a
token containing '+' is turned away. -/
theorem short_link_route_class_w :
    route_matches "Ab3xYz" = true ∧ handle_short_link [] "+abc12" = none :=
  ⟨(short_link_route_class [] "Ab3xYz").1.mpr (by decide),
   (short_link_route_class [] "+abc12").2.2 (by decide)⟩

/-! ### The token found for a full url, across operations -/

/-- Searching a table rewritten by a row transformer that keeps `full_url` finds the
transformed row. -/
theorem find?_map_pres {f : Token → Token}
    (hf : ∀ x, (f x).full_url = x.full_url) (db : List Token) (u : String) :
    (db.map f).find? (fun x => x.full_url == u)
      = (db.find? fun x => x.full_url == u).map f := by
  rw [List.find?_map]
  have he : ((fun x : Token => x.full_url == u) ∘ f)
      = fun x : Token => x.full_url == u := by
    funext x
    simp [Function.comp, hf]
  rw [he]

/-- A successful `get_link` leaves a row for the requested `full_url` whose
`short_url` is the returned token string. -/
theorem get_link_finds (db : List Token) (u : String) (d : List (List Nat))
    (s : String) (db' : List Token)
    (h : get_link db u d = some (s, db')) :
    ∃ t, db'.find? (fun x => x.full_url == u) = some t ∧ t.short_url = s := by
  unfold get_link at h
  cases hf : db.find? (fun t => t.full_url == u) with
  | some token =>
    have hp := List.find?_some hf
    simp only [hf, Option.some.injEq, Prod.mk.injEq] at h
    obtain ⟨hs, hdb⟩ := h
    subst hdb
    refine ⟨{ token with requests_count := token.requests_count + 1 }, ?_, hs⟩
    rw [find?_map_pres (fun x => by split <;> rfl), hf]
    have hq : token.full_url = u := by simpa using hp
    simp [hq]
  | none =>
    cases hg : generate_short_url (shortUrls db) d with
    | some s0 =>
      simp only [hf, hg, Option.some.injEq, Prod.mk.injEq] at h
      obtain ⟨hs, hdb⟩ := h
      subst hdb
      refine ⟨Token.mk u s0 0 true, ?_, hs⟩
      rw [List.find?_append, hf]
      simp
    | none => simp [hf, hg] at h

/-- Shape of the table after one operation: unchanged, or every row rewritten
keeping `full_url` and `short_url` with a non-decreasing counter, or one row
appended. -/
theorem applyOp_cases (db : List Token) (op : Op) :
    applyOp db op = db
    ∨ (∃ f : Token → Token,
        (∀ x, (f x).full_url = x.full_url ∧ (f x).short_url = x.short_url
          ∧ x.requests_count ≤ (f x).requests_count)
        ∧ applyOp db op = db.map f)
    ∨ (∃ t : Token, applyOp db op = db ++ [t]) := by
  cases op with
  | getLink u d =>
    simp only [applyOp, get_link]
    cases hf : db.find? (fun t => t.full_url == u) with
    | some token =>
      refine Or.inr (Or.inl ⟨_, fun x => ?_, rfl⟩)
      refine ⟨?_, ?_, ?_⟩ <;> split <;> simp
    | none =>
      cases hg : generate_short_url (shortUrls db) d with
      | some s0 => exact Or.inr (Or.inr ⟨Token.mk u s0 0 true, rfl⟩)
      | none => exact Or.inl rfl
  | redirect s =>
    simp only [applyOp, redirect_get]
    cases hf : db.find? (fun t => t.short_url == s && t.is_active) with
    | some token =>
      refine Or.inr (Or.inl ⟨_, fun x => ?_, rfl⟩)
      refine ⟨?_, ?_, ?_⟩ <;> split <;> simp
    | none => exact Or.inl rfl

/-- Each operation preserves, for every full url, the found row's `full_url`
and `short_url` (counters may move, rows may be appended, none vanish). -/
theorem find?_full_url_applyOp (db : List Token) (op : Op) (u : String)
    (t : Token) (h : db.find? (fun x => x.full_url == u) = some t) :
    ∃ t', (applyOp db op).find? (fun x => x.full_url == u) = some t'
      ∧ t'.full_url = t.full_url ∧ t'.short_url = t.short_url := by
  rcases applyOp_cases db op with hid | ⟨f, hf, hmap⟩ | ⟨tok, happ⟩
  · exact ⟨t, by rw [hid]; exact h, rfl, rfl⟩
  · refine ⟨f t, ?_, (hf t).1, (hf t).2.1⟩
    rw [hmap, find?_map_pres (fun x => (hf x).1), h]
    rfl
  · refine ⟨t, ?_, rfl, rfl⟩
    rw [happ, List.find?_append, h]
    rfl

/-- Lemma `find?_full_url_applyOp` extended to an operation sequence. -/
theorem find?_full_url_run (ops : List Op) (db : List Token) (u : String)
    (t : Token) (h : db.find? (fun x => x.full_url == u) = some t) :
    ∃ t', (run ops db).find? (fun x => x.full_url == u) = some t'
      ∧ t'.full_url = t.full_url ∧ t'.short_url = t.short_url := by
  induction ops generalizing db t with
  | nil => exact ⟨t, h, rfl, rfl⟩
  | cons op rest ih =>
    obtain ⟨t', h', hu, hs⟩ := find?_full_url_applyOp db op u t h
    obtain ⟨t'', h'', hu', hs'⟩ := ih (applyOp db op) t' h'
    exact ⟨t'', by simpa [run, List.foldl_cons] using h'',
      hu'.trans hu, hs'.trans hs⟩

/-- C4: two get-link requests for the same `full_url`, separated by any
sequence of get-link and redirect operations (no deletions exist in the
core), return the same token string. -/
theorem get_link_idempotent (db : List Token) (u : String)
    (d₁ d₂ : List (List Nat)) (ops : List Op) (s₁ s₂ : String)
    (db₁ db₂ : List Token)
    (h₁ : get_link db u d₁ = some (s₁, db₁))
    (h₂ : get_link (run ops db₁) u d₂ = some (s₂, db₂)) :
    s₂ = s₁ := by
  obtain ⟨t, ht, hts⟩ := get_link_finds db u d₁ s₁ db₁ h₁
  obtain ⟨t', ht', _, hts'⟩ := find?_full_url_run ops db₁ u t ht
  unfold get_link at h₂
  rw [ht'] at h₂
  injection h₂ with h'
  injection h' with hs _
  rw [← hs, hts', hts]

/-- Witness for `get_link_idempotent`: issuing a link for "u" on the empty
table, then hitting the redirect once, then asking again returns the same
token. -/
theorem get_link_idempotent_w : ("aaaaaa" : String) = "aaaaaa" :=
  get_link_idempotent [] "u" [[0, 0, 0, 0, 0, 0]] [] [Op.redirect "aaaaaa"]
    "aaaaaa" "aaaaaa" [Token.mk "u" "aaaaaa" 0 true]
    [Token.mk "u" "aaaaaa" 2 true] (by decide) (by decide)

/-- C5 counterexample: on the creation path (no token for the full url yet)
`get_link` does NOT mutate `requests_count` — the counter of the freshly
created row keeps the field default 0; the `requests_count += 1` in the view
runs only under `if not created`. -/
theorem get_link_creation_counter_unchanged :
    ¬ (∀ (db : List Token) (u : String) (d : List (List Nat))
        (s : String) (db' : List Token),
        get_link db u d = some (s, db') →
        (∀ t ∈ db, t.full_url ≠ u) →
        ∀ t ∈ db', t.full_url = u → t.requests_count ≠ 0) := by
  intro hclaim
  exact hclaim [] "u" [[0, 0, 0, 0, 0, 0]] "aaaaaa"
    [Token.mk "u" "aaaaaa" 0 true] (by decide) (by simp)
    (Token.mk "u" "aaaaaa" 0 true) (by simp) rfl rfl

/-- C5 amended: the existing-token path of get-link and the redirect
operation each increment the matching token's `requests_count` by one; the
creation path of get-link leaves the fresh token's counter at its default 0. -/
theorem requests_count_mutation_paths :
    (∀ (db : List Token) (u : String) (d : List (List Nat)) (s : String)
        (db' : List Token) (t : Token),
        get_link db u d = some (s, db') → t ∈ db → t.full_url = u →
        ∃ t', t' ∈ db' ∧ t'.full_url = u
          ∧ t'.requests_count = t.requests_count + 1)
    ∧ (∀ (db : List Token) (u : String) (d : List (List Nat)) (s : String)
        (db' : List Token),
        get_link db u d = some (s, db') → (∀ t ∈ db, t.full_url ≠ u) →
        ∃ t', t' ∈ db' ∧ t'.full_url = u ∧ t'.requests_count = 0)
    ∧ (∀ (db : List Token) (s url : String) (db' : List Token) (t : Token),
        redirect_get db s = some (url, db') → t ∈ db → t.short_url = s →
        t.is_active = true →
        ∃ t', t' ∈ db' ∧ t'.short_url = s
          ∧ t'.requests_count = t.requests_count + 1) := by
  refine ⟨?_, ?_, ?_⟩
  · intro db u d s db' t h ht hu
    unfold get_link at h
    cases hf : db.find? (fun x => x.full_url == u) with
    | none =>
      rw [List.find?_eq_none] at hf
      exact absurd (by simp [hu]) (hf t ht)
    | some token =>
      simp only [hf, Option.some.injEq, Prod.mk.injEq] at h
      obtain ⟨-, hdb⟩ := h
      subst hdb
      refine ⟨{ t with requests_count := t.requests_count + 1 }, ?_, hu, rfl⟩
      have := List.mem_map_of_mem
        (fun x : Token => if x.full_url == u then
          { x with requests_count := x.requests_count + 1 } else x) ht
      simpa [hu] using this
  · intro db u d s db' h hfresh
    unfold get_link at h
    cases hf : db.find? (fun x => x.full_url == u) with
    | some token =>
      have hp := List.find?_some hf
      have hm := List.mem_of_find?_eq_some hf
      exact absurd (by simpa using hp) (hfresh token hm)
    | none =>
      cases hg : generate_short_url (shortUrls db) d with
      | some s0 =>
        simp only [hf, hg, Option.some.injEq, Prod.mk.injEq] at h
        obtain ⟨-, hdb⟩ := h
        subst hdb
        exact ⟨Token.mk u s0 0 true, List.mem_append_right _ (by simp),
          rfl, rfl⟩
      | none => simp [hf, hg] at h
  · intro db s url db' t h ht hs hact
    unfold redirect_get at h
    cases hf : db.find? (fun x => x.short_url == s && x.is_active) with
    | none =>
      rw [List.find?_eq_none] at hf
      exact absurd (by simp [hs, hact]) (hf t ht)
    | some token =>
      simp only [hf, Option.some.injEq, Prod.mk.injEq] at h
      obtain ⟨-, hdb⟩ := h
      subst hdb
      refine ⟨{ t with requests_count := t.requests_count + 1 }, ?_, hs, rfl⟩
      have := List.mem_map_of_mem
        (fun x : Token => if x.short_url == s && x.is_active then
          { x with requests_count := x.requests_count + 1 } else x) ht
      simpa [hs, hact] using this

/-- Witness for `requests_count_mutation_paths` on one-row tables. -/
theorem requests_count_mutation_paths_w :
    (∃ t', t' ∈ [Token.mk "u" "aaaaaa" 1 true] ∧ t'.full_url = "u"
      ∧ t'.requests_count = (Token.mk "u" "aaaaaa" 0 true).requests_count + 1)
    ∧ (∃ t', t' ∈ [Token.mk "u" "aaaaaa" 0 true] ∧ t'.full_url = "u"
      ∧ t'.requests_count = 0)
    ∧ (∃ t', t' ∈ [Token.mk "u" "aaaaaa" 1 true] ∧ t'.short_url = "aaaaaa"
      ∧ t'.requests_count = (Token.mk "u" "aaaaaa" 0 true).requests_count + 1) :=
  ⟨requests_count_mutation_paths.1 [Token.mk "u" "aaaaaa" 0 true] "u" []
      "aaaaaa" [Token.mk "u" "aaaaaa" 1 true] (Token.mk "u" "aaaaaa" 0 true)
      (by decide) (by simp) rfl,
   requests_count_mutation_paths.2.1 [] "u" [[0, 0, 0, 0, 0, 0]] "aaaaaa"
      [Token.mk "u" "aaaaaa" 0 true] (by decide) (by simp),
   requests_count_mutation_paths.2.2 [Token.mk "u" "aaaaaa" 0 true] "aaaaaa"
      "u" [Token.mk "u" "aaaaaa" 1 true] (Token.mk "u" "aaaaaa" 0 true)
      (by decide) (by simp) rfl rfl⟩

/-- C6: a successful redirect returns the full url of a stored token that
carries the requested short url and is active; if no stored token matches
the short url while active, the redirect answers not-found. -/
theorem redirect_active_token_only (db : List Token) (s : String) :
    (∀ (url : String) (db' : List Token),
        redirect_get db s = some (url, db') →
        ∃ t, t ∈ db ∧ t.short_url = s ∧ t.is_active = true ∧ t.full_url = url)
    ∧ ((∀ t ∈ db, ¬(t.short_url = s ∧ t.is_active = true)) →
        redirect_get db s = none) := by
  constructor
  · intro url db' h
    unfold redirect_get at h
    cases hf : db.find? (fun x => x.short_url == s && x.is_active) with
    | none => simp [hf] at h
    | some token =>
      have hp := List.find?_some hf
      have hm := List.mem_of_find?_eq_some hf
      simp only [hf, Option.some.injEq, Prod.mk.injEq] at h
      obtain ⟨hurl, -⟩ := h
      simp only [Bool.and_eq_true, beq_iff_eq] at hp
      exact ⟨token, hm, hp.1, hp.2, hurl⟩
  · intro hnone
    unfold redirect_get
    have hf : db.find? (fun x => x.short_url == s && x.is_active) = none := by
      rw [List.find?_eq_none]
      intro x hx
      simp only [Bool.and_eq_true, beq_iff_eq]
      intro hq
      exact hnone x hx hq
    rw [hf]

/-- Witness for `redirect_active_token_only`: an inactive token is never
followed, a matching active one is. -/
theorem redirect_active_token_only_w :
    (∃ t, t ∈ [Token.mk "u" "aaaaaa" 0 true] ∧ t.short_url = "aaaaaa"
      ∧ t.is_active = true ∧ t.full_url = "u")
    ∧ redirect_get [Token.mk "u" "cccccc" 0 false] "cccccc" = none :=
  ⟨(redirect_active_token_only [Token.mk "u" "aaaaaa" 0 true] "aaaaaa").1
      "u" [Token.mk "u" "aaaaaa" 1 true] (by decide),
   (redirect_active_token_only [Token.mk "u" "cccccc" 0 false] "cccccc").2
      (by simp)⟩

/-- One operation never decreases any token's counter: every stored row maps
to a row with the same urls and a counter at least as large. -/
theorem requests_count_monotone_step (db : List Token) (op : Op) (t : Token)
    (ht : t ∈ db) :
    ∃ t', t' ∈ applyOp db op ∧ t'.full_url = t.full_url
      ∧ t'.short_url = t.short_url
      ∧ t.requests_count ≤ t'.requests_count := by
  rcases applyOp_cases db op with hid | ⟨f, hf, hmap⟩ | ⟨tok, happ⟩
  · exact ⟨t, by rw [hid]; exact ht, rfl, rfl, le_refl _⟩
  · exact ⟨f t, by rw [hmap]; exact List.mem_map_of_mem f ht,
      (hf t).1, (hf t).2.1, (hf t).2.2⟩
  · exact ⟨t, by rw [happ]; exact List.mem_append_left _ ht, rfl, rfl,
      le_refl _⟩

/-- C8: along any sequence of get-link and redirect operations, each token's
`requests_count` is monotonically non-decreasing — no operation of the core
ever lowers a counter. -/
theorem requests_count_monotone (ops : List Op) (db : List Token) (t : Token)
    (ht : t ∈ db) :
    ∃ t', t' ∈ run ops db ∧ t'.full_url = t.full_url
      ∧ t.requests_count ≤ t'.requests_count := by
  induction ops generalizing db t with
  | nil => exact ⟨t, ht, rfl, le_refl _⟩
  | cons op rest ih =>
    obtain ⟨t', h', hu, -, hc⟩ := requests_count_monotone_step db op t ht
    obtain ⟨t'', h'', hu', hc'⟩ := ih (applyOp db op) t' h'
    exact ⟨t'', by simpa [run, List.foldl_cons] using h'',
      hu'.trans hu, hc.trans hc'⟩

/-- Witness for `requests_count_monotone` on a one-row table hit by a
redirect. -/
theorem requests_count_monotone_w :
    ∃ t', t' ∈ run [Op.redirect "aaaaaa"] [Token.mk "u" "aaaaaa" 0 true]
      ∧ t'.full_url = (Token.mk "u" "aaaaaa" 0 true).full_url
      ∧ (Token.mk "u" "aaaaaa" 0 true).requests_count
          ≤ t'.requests_count :=
  requests_count_monotone [Op.redirect "aaaaaa"]
    [Token.mk "u" "aaaaaa" 0 true] (Token.mk "u" "aaaaaa" 0 true) (by simp)

/-- C9: a token created by get-link (no row for the full url existed) is
created with `is_active = true`, and it immediately satisfies the
`is_active=True` lookup of the redirect view: redirecting on the fresh short
url succeeds and yields the original full url. -/
theorem created_token_is_active (db : List Token) (u : String)
    (d : List (List Nat)) (s : String) (db' : List Token)
    (hfresh : ∀ t ∈ db, t.full_url ≠ u)
    (h : get_link db u d = some (s, db')) :
    ∃ t', t' ∈ db' ∧ t'.full_url = u ∧ t'.short_url = s
      ∧ t'.is_active = true
      ∧ ∃ db'', redirect_get db' s = some (u, db'') := by
  unfold get_link at h
  cases hf : db.find? (fun x => x.full_url == u) with
  | some token =>
    have hp := List.find?_some hf
    have hm := List.mem_of_find?_eq_some hf
    exact absurd (by simpa using hp) (hfresh token hm)
  | none =>
    cases hg : generate_short_url (shortUrls db) d with
    | some s0 =>
      simp only [hf, hg, Option.some.injEq, Prod.mk.injEq] at h
      obtain ⟨hs, hdb⟩ := h
      subst hdb
      subst hs
      have hnotmem : s0 ∉ shortUrls db :=
        generate_short_url_not_mem _ _ _ hg
      have hfind : (db ++ [Token.mk u s0 0 true]).find?
          (fun x => x.short_url == s0 && x.is_active)
          = some (Token.mk u s0 0 true) := by
        rw [List.find?_append]
        have hdbnone : db.find? (fun x => x.short_url == s0 && x.is_active)
            = none := by
          rw [List.find?_eq_none]
          intro x hx
          simp only [Bool.and_eq_true, beq_iff_eq]
          rintro ⟨hxs, -⟩
          exact hnotmem (hxs ▸ List.mem_map_of_mem Token.short_url hx)
        rw [hdbnone]
        simp
      refine ⟨Token.mk u s0 0 true,
        List.mem_append_right _ (by simp), rfl, rfl, rfl,
        (db ++ [Token.mk u s0 0 true]).map fun x =>
          if x.short_url == s0 && x.is_active then
            { x with requests_count := x.requests_count + 1 } else x, ?_⟩
      unfold redirect_get
      rw [hfind]
    | none => simp [hf, hg] at h

/-- Witness for `created_token_is_active`: creating on the empty table. -/
theorem created_token_is_active_w :
    ∃ t', t' ∈ [Token.mk "u" "aaaaaa" 0 true] ∧ t'.full_url = "u"
      ∧ t'.short_url = "aaaaaa" ∧ t'.is_active = true
      ∧ ∃ db'',
          redirect_get [Token.mk "u" "aaaaaa" 0 true] "aaaaaa"
            = some ("u", db'') :=
  created_token_is_active [] "u" [[0, 0, 0, 0, 0, 0]] "aaaaaa"
    [Token.mk "u" "aaaaaa" 0 true] (by simp) (by decide)

/-- C1: the aggregated shopping list holds exactly one (name, unit, total)
row per distinct (ingredient name, unit) pair among the cart's recipe
ingredients, with total the sum of that group's amounts; the rows are ordered
alphabetically by ingredient name and group keys never repeat. In particular
(flour scenario) a cart with 200 g flour in one recipe and 300 g in another
aggregates to the single line flour/g/500. -/
theorem shopping_list_aggregation_correct (db : FoodDB) (user : Nat) :
    (∀ (n u : String) (a : Nat),
        (n, u, a) ∈ generate_shopping_list db user ↔
          ((n, u) ∈ (cartRows db user).map itemKey
            ∧ a = groupTotal (cartRows db user) (n, u)))
    ∧ List.Sorted (fun x y : String × String × Nat => x.1 ≤ y.1)
        (generate_shopping_list db user)
    ∧ ((generate_shopping_list db user).map itemKey).Nodup
    ∧ generate_shopping_list flourDB 1 = [("flour", "g", 500)] := by
  refine ⟨?_, ?_, ?_, by decide⟩
  · intro n u a
    unfold generate_shopping_list
    simp only [List.mem_map]
    constructor
    · rintro ⟨k, hk, heq⟩
      have hk' : k ∈ (cartRows db user).map itemKey :=
        List.mem_dedup.mp
          ((List.perm_insertionSort keyLE
            ((cartRows db user).map itemKey).dedup).mem_iff.mp hk)
      simp only [Prod.mk.injEq] at heq
      obtain ⟨h1, h2, h3⟩ := heq
      subst h1
      subst h2
      subst h3
      simpa using hk'
    · rintro ⟨hmem, ha⟩
      refine ⟨(n, u), ?_, ?_⟩
      · rw [List.mem_insertionSort]
        exact List.mem_dedup.mpr (List.mem_map.mpr hmem)
      · simp [ha]
  · unfold generate_shopping_list
    exact (List.sorted_insertionSort keyLE
        ((cartRows db user).map itemKey).dedup).map _
      (fun a b hab => by
        rcases hab with h | ⟨h, -⟩
        · exact le_of_lt h
        · exact le_of_eq h)
  · unfold generate_shopping_list
    have h1 : ((List.insertionSort keyLE
        ((cartRows db user).map itemKey).dedup).map
          (fun k => (k.1, k.2, groupTotal (cartRows db user) k))).map itemKey
        = List.insertionSort keyLE ((cartRows db user).map itemKey).dedup := by
      rw [List.map_map]
      have hid : (itemKey ∘ fun k : String × String =>
          (k.1, k.2, groupTotal (cartRows db user) k)) = id := by
        funext k
        simp [Function.comp, itemKey]
      rw [hid, List.map_id]
    rw [h1]
    exact (List.perm_insertionSort keyLE
      ((cartRows db user).map itemKey).dedup).nodup_iff.mpr
      (List.nodup_dedup _)

/-- C7: with no cart entry for the user, the aggregator yields the empty
list (no error path exists) and the rendered document is just the header. -/
theorem empty_cart_empty_list (db : FoodDB) (user : Nat)
    (h : ∀ sc ∈ db.shopping_carts, sc.user ≠ user) :
    generate_shopping_list db user = []
    ∧ shopping_doc_lines db user = ["Список покупок"] := by
  have hrows : cartRows db user = [] := by
    unfold cartRows
    have hfil : db.recipe_ingredients.filter (fun ri =>
        db.shopping_carts.any fun sc =>
          sc.user == user && sc.recipe == ri.recipe) = [] := by
      rw [List.filter_eq_nil_iff]
      intro ri _
      intro hany
      rw [List.any_eq_true] at hany
      obtain ⟨sc, hsc, hcond⟩ := hany
      rw [Bool.and_eq_true, beq_iff_eq, beq_iff_eq] at hcond
      exact h sc hsc hcond.1
    rw [hfil]
    rfl
  have hlist : generate_shopping_list db user = [] := by
    unfold generate_shopping_list
    rw [hrows]
    rfl
  refine ⟨hlist, ?_⟩
  unfold shopping_doc_lines
  rw [hlist]
  rfl

/-- Witness for `empty_cart_empty_list`: the only cart entry belongs to a
different user. -/
theorem empty_cart_empty_list_w :
    generate_shopping_list (FoodDB.mk [] [] [ShoppingCart.mk 2 1]) 1 = []
    ∧ shopping_doc_lines (FoodDB.mk [] [] [ShoppingCart.mk 2 1]) 1
        = ["Список покупок"] :=
  empty_cart_empty_list (FoodDB.mk [] [] [ShoppingCart.mk 2 1]) 1 (by decide)

end Foodgram
